import Mathlib

/-!
Verification of the natural-language specification of the
`arkeditor/rss-feed-merger` repository against a shallow embedding of its
source (the enhanced v2.1.3 merger variant in `final-rss-merger.js`,
which is the variant all verified claims cite).

Strings are modeled as `List Char` (Unicode code points).  The source
indexes JavaScript strings by UTF-16 code units; the two coincide on the
Basic Multilingual Plane, which covers every string constant of the
source and every concrete input considered here.  JavaScript
`toLowerCase` is modeled by `Char.toLower` (ASCII case mapping), which
agrees with it on ASCII text.  Floating-point score arithmetic is
modeled exactly over `Rat`; the only transcendental operation,
`Math.exp` in the date-proximity term, is abstracted as an arbitrary
function parameter `expModel`, so every theorem below holds for every
model of it.
-/

set_option maxRecDepth 8000

/- The Batteries rational-number operations are irreducible by default, which
blocks evaluation of the score arithmetic inside `decide`; restore the
definitional transparency for this file. -/
unseal Rat.add Rat.sub Rat.mul Rat.inv

namespace RssMerger

/-- Shorthand used to write string constants as the `List Char` the model works on. -/
def strL (s : String) : List Char := s.data

/-- Character class of the JavaScript regex class `\s` (whitespace). -/
def isWs (c : Char) : Bool :=
  c.toNat = 32 || c.toNat = 9 || c.toNat = 10 || c.toNat = 13 ||
  c.toNat = 11 || c.toNat = 12 || c.toNat = 0xa0 || c.toNat = 0x1680 ||
  (decide (0x2000 ≤ c.toNat) && decide (c.toNat ≤ 0x200a)) ||
  c.toNat = 0x2028 || c.toNat = 0x2029 || c.toNat = 0x202f ||
  c.toNat = 0x205f || c.toNat = 0x3000 || c.toNat = 0xfeff

/-- Character class of the JavaScript regex class `\w` ([A-Za-z0-9_]). -/
def isWordChar (c : Char) : Bool :=
  (decide (65 ≤ c.toNat) && decide (c.toNat ≤ 90)) ||
  (decide (97 ≤ c.toNat) && decide (c.toNat ≤ 122)) ||
  (decide (48 ≤ c.toNat) && decide (c.toNat ≤ 57)) ||
  c.toNat = 95

/-- Character class of the source regex `[,;:]` (`PATTERNS.trailingPunctuation`). -/
def isPunctCSC (c : Char) : Bool :=
  c = ',' || c = ';' || c = ':'

/-- Characters matched by an unflagged JavaScript regex dot: anything but a line terminator. -/
def jsDot (c : Char) : Bool :=
  !(c.toNat = 10 || c.toNat = 13 || c.toNat = 0x2028 || c.toNat = 0x2029)

/-- JavaScript `toLowerCase`, restricted to the ASCII mapping. -/
def lowerL (l : List Char) : List Char := l.map Char.toLower

/-- Drop a maximal run of `P`-characters from the right end
(the effect of replacing an end-anchored `[...]+$` regex by the empty string). -/
def rdropW (P : Char → Bool) (l : List Char) : List Char :=
  (l.reverse.dropWhile P).reverse

/-- JavaScript `String.prototype.trim`. -/
def trimWs (l : List Char) : List Char :=
  rdropW isWs (l.dropWhile isWs)

/-- Decidable contiguous-substring test, the model of JavaScript `String.prototype.includes`. -/
def containsSub (pat : List Char) : List Char → Bool
  | [] => pat.isEmpty
  | x :: xs => pat.isPrefixOf (x :: xs) || containsSub pat xs

/-- The option value is a non-empty string: the truthiness test JavaScript applies to
a possibly-null string field. -/
def optTruthy : Option (List Char) → Bool
  | none => false
  | some l => !l.isEmpty

/-- Read an optional string the way JavaScript coerces null and undefined inside
the string-consuming helpers of the source (each of which starts with a falsy guard). -/
def optStr : Option (List Char) → List Char :=
  fun o => o.getD []

/-- JavaScript `a || b` on two optional strings: the first operand if truthy, else the second. -/
def orFalsy (a b : Option (List Char)) : Option (List Char) :=
  if optTruthy a then a else b

/-- Order-preserving deduplication: the element list of `new Set(l)` in JavaScript. -/
def jsSetOf : List (List Char) → List (List Char)
  | [] => []
  | x :: xs => x :: jsSetOf (xs.filter (fun y => y ≠ x))
termination_by l => l.length
decreasing_by
  simp only [List.length_cons]
  exact Nat.lt_succ_of_le (List.length_filter_le _ _)

/-- Split on runs of whitespace, the model of `split(/\s+/)`.  `List.splitOnP`
additionally emits empty pieces between consecutive separators; every use in
the source immediately filters tokens by a length bound greater than zero, so
the two splitters are interchangeable there. -/
def splitWsL (l : List Char) : List (List Char) :=
  List.splitOnP isWs l

/-- One token of a fixed-width regex pattern: a literal character or the dot wildcard.
All patterns built by the source (`TITLE_NORMALIZATIONS` keys compiled via
`new RegExp(from, "gi")`, and the HTML-entity keys via `new RegExp(entity, "g")`)
consist only of such tokens, each consuming exactly one character. -/
inductive RTok where
  | lit (c : Char)
  | anyc
deriving DecidableEq

/-- Match one pattern token against one character, optionally case-insensitively. -/
def rtokMatch (ci : Bool) : RTok → Char → Bool
  | RTok.lit p, c => if ci then p.toLower = c.toLower else p = c
  | RTok.anyc, c => jsDot c

/-- Does the pattern match at the head of the list? -/
def matchesAt (ci : Bool) : List RTok → List Char → Bool
  | [], _ => true
  | _ :: _, [] => false
  | t :: ts, c :: cs => rtokMatch ci t c && matchesAt ci ts cs

/-- Fueled worker for `replaceAll`.  Each step consumes at least one character of
the scanned list when the pattern is non-empty, so fuel equal to the initial
length makes the scan total; the zero-fuel case is then only reached on the
empty list. -/
def replaceAllAux (ci : Bool) (pat : List RTok) (rep : List Char) : Nat → List Char → List Char
  | 0, l => l
  | _ + 1, [] => []
  | fuel + 1, x :: xs =>
    if matchesAt ci pat (x :: xs) then
      rep ++ replaceAllAux ci pat rep fuel (List.drop (pat.length - 1) xs)
    else
      x :: replaceAllAux ci pat rep fuel xs

/-- Global regex replace `str.replace(pattern, rep)` for a fixed-width pattern:
scan left to right, replace each match, resume after it. -/
def replaceAll (ci : Bool) (pat : List RTok) (rep : List Char) (l : List Char) : List Char :=
  if pat.isEmpty then l else replaceAllAux ci pat rep l.length l

/-- Build the token list of a purely literal pattern. -/
def litP (s : String) : List RTok := s.data.map RTok.lit

/-- Collapse every maximal whitespace run to a single space: the global
whitespace-to-space replacement. -/
def collapseWsAux : Nat → List Char → List Char
  | 0, l => l
  | _ + 1, [] => []
  | fuel + 1, x :: xs =>
    if isWs x then ' ' :: collapseWsAux fuel (xs.dropWhile isWs)
    else x :: collapseWsAux fuel xs

/-- Model of the `PATTERNS.whitespace` replacement by a single space. -/
def collapseWs (l : List Char) : List Char := collapseWsAux l.length l

/-- Collapse whitespace runs of length at least two to a single space:
the global `PATTERNS.extraSpaces` replacement by a single space. -/
def collapseWs2Aux : Nat → List Char → List Char
  | 0, l => l
  | _ + 1, [] => []
  | fuel + 1, x :: xs =>
    if isWs x && (match xs with | y :: _ => isWs y | [] => false) then
      ' ' :: collapseWs2Aux fuel (xs.dropWhile isWs)
    else x :: collapseWs2Aux fuel xs

/-- Model of the `PATTERNS.extraSpaces` replacement by a single space. -/
def collapseWs2 (l : List Char) : List Char := collapseWs2Aux l.length l

/-- Replace every character outside `\w` and `\s` by a space:
the global `PATTERNS.punctuation` replacement by a space. -/
def punctToSpace (l : List Char) : List Char :=
  l.map (fun c => if !isWordChar c && !isWs c then ' ' else c)

/-- The Levenshtein distance exactly as the source computes it: dynamic
programming over a (str2.length+1) x (str1.length+1) matrix, cell cost
`min(left+1, up+1, diag+indicator)`.  `levRow` produces the cells of one
row past its index-0 entry, given the previous row past its index-0 entry
(`prev`), the index-0 entry of the previous row (`diag`), and the current
entry of the row just to the left (`left`). -/
def levRow (c2 : Char) : List Char → List Nat → Nat → Nat → List Nat
  | [], _, _, _ => []
  | _ :: _, [], _, _ => []
  | c1 :: cs, p :: ps, diag, left =>
    let indicator := if c1 = c2 then 0 else 1
    let v := Nat.min (left + 1) (Nat.min (p + 1) (diag + indicator))
    v :: levRow c2 cs ps p v

/-- Source function `levenshteinDistance(str1, str2)` of the source. -/
def levenshteinDistance (s1 s2 : List Char) : Nat :=
  let row0 : List Nat := List.range (s1.length + 1)
  let final :=
    (s2.foldl
      (fun (st : Nat × List Nat) c2 =>
        let j := st.1 + 1
        let prev := st.2
        (j, j :: levRow c2 s1 prev.tail (prev.headD 0) j))
      (0, row0)).2
  final.getLastD 0

/-- Source function `stringSimilarity(str1, str2)` of the source: the empty-string guard returns 0
(JavaScript empty strings are falsy), identical strings score 1, and otherwise the
score is one minus the edit distance normalized by the longer length.  The
`maxLength === 0` branch of the source is kept although it is unreachable. -/
def stringSimilarity (s1 s2 : List Char) : Rat :=
  if s1 = [] ∨ s2 = [] then 0
  else if s1 = s2 then 1
  else
    let maxLength := Nat.max s1.length s2.length
    if maxLength = 0 then 1
    else 1 - (levenshteinDistance s1 s2 : Rat) / (maxLength : Rat)

/-- Tokens a string contributes to word-overlap comparison: lowercase, split on
whitespace, keep tokens longer than two characters. -/
def tokensOf (l : List Char) : List (List Char) :=
  (splitWsL (lowerL l)).filter (fun w => w.length > 2)

/-- Source function `wordOverlapSimilarity(str1, str2)` of the source: falsy guard first, then
Jaccard index of the deduplicated token lists. -/
def wordOverlapSimilarity (s1 s2 : List Char) : Rat :=
  if s1 = [] ∨ s2 = [] then 0
  else
    let words1 := tokensOf s1
    let words2 := tokensOf s2
    if words1 = [] ∧ words2 = [] then 1
    else if words1 = [] ∨ words2 = [] then 0
    else
      let set1 := jsSetOf words1
      let set2 := jsSetOf words2
      let inter := jsSetOf (set1.filter (fun x => x ∈ set2))
      let uni := jsSetOf (set1 ++ set2)
      (inter.length : Rat) / (uni.length : Rat)

/-- The `COLUMN_NAMES` constant of the source. -/
def COLUMN_NAMES : List (List Char) :=
  [strL "New Business", strL "Sports Shout", strL "Everyday Encounter",
   strL "Everyday Encounters", strL "Notes from an Appraiser", strL "Garden Plot",
   strL "Travel Bug", strL "Wildflower Watch"]

/-- The `COLUMN_FRAGMENTS` constant of the source: pairs of fragment and full column name. -/
def COLUMN_FRAGMENTS : List (List Char × List Char) :=
  [(strL "Encounters", strL "Everyday Encounters"),
   (strL "Encounter", strL "Everyday Encounters"),
   (strL "Sports Shout", strL "Sports Shout"),
   (strL "Notes from an Appraiser", strL "Notes from an Appraiser"),
   (strL "Garden Plot", strL "Garden Plot"),
   (strL "Travel Bug", strL "Travel Bug"),
   (strL "Wildflower Watch", strL "Wildflower Watch"),
   (strL "New Business", strL "New Business")]

/-- The `commonPrefixes` list inside `parseColumnTitle`. -/
def commonPrefixes : List (List Char) :=
  [strL "July 4 holiday", strL "Fourth of July", strL "Independence Day",
   strL "Holiday", strL "Breaking", strL "Update", strL "News", strL "Local"]

/-- The jump-page continuation marker the source tests with `includes`:
a comma followed by space and the word from. -/
def commaFrom : List Char := strL ", from"

/-- Result record of `detectColumnFragment`. -/
structure FragmentResult where
  fragment : List Char
  fullName : List Char
  confidence : Rat
deriving DecidableEq

/-- Config constant `CONFIG.fuzzyMatchThreshold` (0.55). -/
def fuzzyMatchThreshold : Rat := 55 / 100

/-- Config constant `CONFIG.fragmentMatchThreshold` (0.8). -/
def fragmentMatchThreshold : Rat := 8 / 10

/-- Config constant `CONFIG.columnMatchBonus` (0.3). -/
def columnMatchBonus : Rat := 3 / 10

/-- Config constant `CONFIG.titleSimilarityWeight` (0.7). -/
def titleSimilarityWeight : Rat := 7 / 10

/-- Config constant `CONFIG.authorMatchWeight` (0.2). -/
def authorMatchWeight : Rat := 2 / 10

/-- Config constant `CONFIG.columnMatchWeight` (0.05). -/
def columnMatchWeight : Rat := 5 / 100

/-- Config constant `CONFIG.dateProximityWeight` (0.05). -/
def dateProximityWeight : Rat := 5 / 100

/-- Source function `detectColumnFragment(title)` of the source: lowercase, strip trailing `[,;:]+`,
trim, refuse jump-page titles containing the comma-from marker, then look for an
exact fragment match (confidence 1) and finally a containment match with
edit-distance similarity above 0.7. -/
def detectColumnFragment (title : List Char) : Option FragmentResult :=
  if title = [] then none
  else
    let normalizedTitle := trimWs (rdropW isPunctCSC (lowerL title))
    if containsSub commaFrom normalizedTitle then none
    else
      match COLUMN_FRAGMENTS.findSome?
          (fun p => if normalizedTitle = lowerL p.1 then
                      some ({ fragment := p.1, fullName := p.2, confidence := 1 } : FragmentResult)
                    else none) with
      | some r => some r
      | none =>
        COLUMN_FRAGMENTS.findSome?
          (fun p =>
            let fragLower := lowerL p.1
            if containsSub fragLower normalizedTitle || containsSub normalizedTitle fragLower then
              let similarity := stringSimilarity normalizedTitle fragLower
              if similarity > 7 / 10 then
                some { fragment := p.1, fullName := p.2, confidence := similarity }
              else none
            else none)

/-- Result record of `parseColumnTitle`.  The source omits `isFragment` and
`fragmentConfidence` on the non-fragment paths; they are modeled as
`false` and `0` there. -/
structure ParsedTitle where
  columnName : Option (List Char)
  coreTitle : List Char
  fullTitle : List Char
  isFragment : Bool
  fragmentConfidence : Rat
deriving DecidableEq

/-- One iteration of the `COLUMN_NAMES` loop in `parseColumnTitle`: try the
`"ColumnName: Title"` format and then the `"ColumnName Title"` format, each
returning only when the residual core title is non-empty. -/
def columnSplitOne (cleanTitle col : List Char) : Option (List Char × List Char) :=
  if (lowerL col ++ [':']).isPrefixOf (lowerL cleanTitle) ∧
     trimWs (cleanTitle.drop (col.length + 1)) ≠ [] then
    some (col, trimWs (cleanTitle.drop (col.length + 1)))
  else if (lowerL col ++ [' ']).isPrefixOf (lowerL cleanTitle) ∧
          trimWs (cleanTitle.drop (col.length + 1)) ≠ [] then
    some (col, trimWs (cleanTitle.drop (col.length + 1)))
  else none

/-- One iteration of the `commonPrefixes` loop in `parseColumnTitle`
(colon format only). -/
def prefixSplitOne (cleanTitle p : List Char) : Option (List Char × List Char) :=
  if (lowerL p ++ [':']).isPrefixOf (lowerL cleanTitle) ∧
     trimWs (cleanTitle.drop (p.length + 1)) ≠ [] then
    some (p, trimWs (cleanTitle.drop (p.length + 1)))
  else none

/-- The generic `"word:"` pattern at the end of `parseColumnTitle`: a colon at
index 0 < i < 30, prefix at most 25 characters after trimming, remainder longer
than 10 characters after trimming. -/
def genericColonSplit (cleanTitle : List Char) : Option (List Char × List Char) :=
  match cleanTitle.findIdx? (fun c => c = ':') with
  | none => none
  | some i =>
    if 0 < i ∧ i < 30 then
      if (trimWs (cleanTitle.drop (i + 1))).length > 10 ∧
         (trimWs (cleanTitle.take i)).length ≤ 25 then
        some (trimWs (cleanTitle.take i), trimWs (cleanTitle.drop (i + 1)))
      else none
    else none

/-- The body of `parseColumnTitle` on the trimmed title (`cleanTitle` in the
source). -/
def parseColumnTitleClean (cleanTitle : List Char) : ParsedTitle :=
  match (match detectColumnFragment cleanTitle with
         | some fr => if fr.confidence > 8 / 10 then some fr else none
         | none => none) with
    | some fr =>
      { columnName := some fr.fullName, coreTitle := cleanTitle, fullTitle := cleanTitle,
        isFragment := true, fragmentConfidence := fr.confidence }
    | none =>
      match COLUMN_NAMES.findSome? (columnSplitOne cleanTitle) with
      | some (col, core) =>
        { columnName := some col, coreTitle := core, fullTitle := cleanTitle,
          isFragment := false, fragmentConfidence := 0 }
      | none =>
        match commonPrefixes.findSome? (prefixSplitOne cleanTitle) with
        | some (p, core) =>
          { columnName := some p, coreTitle := core, fullTitle := cleanTitle,
            isFragment := false, fragmentConfidence := 0 }
        | none =>
          match genericColonSplit cleanTitle with
          | some (p, core) =>
            { columnName := some p, coreTitle := core, fullTitle := cleanTitle,
              isFragment := false, fragmentConfidence := 0 }
          | none =>
            { columnName := none, coreTitle := cleanTitle, fullTitle := cleanTitle,
              isFragment := false, fragmentConfidence := 0 }

/-- Source function `parseColumnTitle(title)` of the source: falsy guard, trim, then the
fragment / known-column / common-prefix / generic-colon cascade of
`parseColumnTitleClean`. -/
def parseColumnTitle (title : List Char) : ParsedTitle :=
  if title = [] then
    { columnName := none, coreTitle := [], fullTitle := [], isFragment := false,
      fragmentConfidence := 0 }
  else parseColumnTitleClean (trimWs title)

/-- The HTML-entity table of `decodeHtmlEntities`, in the source Map order.
Quote and apostrophe replacement characters are written with `Char.ofNat`
(39 is the apostrophe, 34 the double quote). -/
def entityPairs : List (List Char × List Char) :=
  [(strL "&#38;", strL "&"), (strL "&amp;", strL "&"),
   (strL "&#39;", [Char.ofNat 39]), (strL "&apos;", [Char.ofNat 39]),
   (strL "&#34;", [Char.ofNat 34]), (strL "&quot;", [Char.ofNat 34]),
   (strL "&#60;", strL "<"), (strL "&lt;", strL "<"),
   (strL "&#62;", strL ">"), (strL "&gt;", strL ">"),
   (strL "&#160;", strL " "), (strL "&nbsp;", strL " "),
   (strL "&#8217;", [Char.ofNat 39]), (strL "&rsquo;", [Char.ofNat 39]),
   (strL "&#8216;", [Char.ofNat 39]), (strL "&lsquo;", [Char.ofNat 39]),
   (strL "&#8220;", [Char.ofNat 34]), (strL "&ldquo;", [Char.ofNat 34]),
   (strL "&#8221;", [Char.ofNat 34]), (strL "&rdquo;", [Char.ofNat 34]),
   (strL "&#8211;", [Char.ofNat 0x2013]), (strL "&ndash;", [Char.ofNat 0x2013]),
   (strL "&#8212;", [Char.ofNat 0x2014]), (strL "&mdash;", [Char.ofNat 0x2014])]

/-- Source function `decodeHtmlEntities(text)` of the source: the falsy guard, then one global
case-sensitive replacement per entity, in table order. -/
def decodeHtmlEntities (l : List Char) : List Char :=
  if l = [] then l
  else entityPairs.foldl (fun acc p => replaceAll false (p.1.map RTok.lit) p.2 acc) l

/-- The `TITLE_NORMALIZATIONS` table, compiled as the source compiles it:
`new RegExp(from, "gi")`.  The dot in the abbreviation keys is a
regex metacharacter there and therefore matches any character. -/
def titleNormalizations : List (List RTok × List Char) :=
  [(litP "town council", strL "city council"),
   (litP "tiburon town council", strL "tiburon city council"),
   (litP "&amp;", strL "and"),
   (litP "&", strL "and"),
   (litP "w/", strL "with"),
   (litP "st" ++ [RTok.anyc], strL "street"),
   (litP "rd" ++ [RTok.anyc], strL "road"),
   (litP "ave" ++ [RTok.anyc], strL "avenue"),
   ([RTok.lit (Char.ofNat 0x2019)], [Char.ofNat 39]),
   ([RTok.lit (Char.ofNat 0x201c)], [Char.ofNat 34]),
   ([RTok.lit (Char.ofNat 0x201d)], [Char.ofNat 34]),
   ([RTok.lit (Char.ofNat 0x2013)], strL "-"),
   ([RTok.lit (Char.ofNat 0x2014)], strL "-")]

/-- Apply every `TITLE_NORMALIZATIONS` replacement, in table order,
case-insensitively and globally. -/
def applyTitleNormalizations (l : List Char) : List Char :=
  titleNormalizations.foldl (fun acc p => replaceAll true p.1 p.2 acc) l

/-- Try to strip one given leading article followed by mandatory whitespace. -/
def tryArticle (w l : List Char) : Option (List Char) :=
  if w.isPrefixOf l then
    match l.drop w.length with
    | c :: rest => if isWs c then some ((c :: rest).dropWhile isWs) else none
    | [] => none
  else none

/-- The `PATTERNS.leadingArticles` replacement by the empty string on the
already-lowercased string.  The alternation is tried in source order; the
regex engine falls through from `a` to `an` when no whitespace follows the
single letter. -/
def dropLeadingArticle (l : List Char) : List Char :=
  match tryArticle (strL "the") l with
  | some r => r
  | none =>
    match tryArticle (strL "a") l with
    | some r => r
    | none =>
      match tryArticle (strL "an") l with
      | some r => r
      | none => l

/-- The preposition alternation of `PATTERNS.commonPrepositions`, in source order. -/
def prepWords : List (List Char) :=
  [strL "to", strL "in", strL "at", strL "on", strL "by",
   strL "with", strL "for", strL "of", strL "and", strL "or"]

/-- Try to match `\s+(to|in|...|or)\s+` at the head of the list, returning the
remainder after the greedy trailing whitespace run. -/
def matchPrep (l : List Char) : Option (List Char) :=
  if (l.takeWhile isWs).isEmpty then none
  else
    let l1 := l.dropWhile isWs
    prepWords.findSome? (fun w =>
      if w.isPrefixOf l1 then
        let l2 := l1.drop w.length
        if (l2.takeWhile isWs).isEmpty then none
        else some (l2.dropWhile isWs)
      else none)

/-- Fueled scanner for the `PATTERNS.commonPrepositions` replacement: the
replacement resumes after each match, exactly as a global regex does
(so the trailing whitespace a match consumed is not available to start
the next match). -/
def removePrepsAux : Nat → List Char → List Char
  | 0, l => l
  | _ + 1, [] => []
  | fuel + 1, x :: xs =>
    match matchPrep (x :: xs) with
    | some rest => ' ' :: removePrepsAux fuel rest
    | none => x :: removePrepsAux fuel xs

/-- Model of the `PATTERNS.commonPrepositions` replacement by a space. -/
def removePreps (l : List Char) : List Char := removePrepsAux l.length l

/-- Try to match one of the `\b`-delimited alternatives at the head of the list,
returning the number of characters matched.  The leading boundary is checked by
the caller; the trailing boundary is the next character not being a word
character (or the end of the string). -/
def tryAlts (alts : List (List Char)) (l : List Char) : Option Nat :=
  alts.findSome? (fun a =>
    if a.isPrefixOf l then
      match l.drop a.length with
      | [] => some a.length
      | c :: _ => if isWordChar c then none else some a.length
    else none)

/-- Fueled scanner for a global `\b(alt1|alt2|...)\b` replacement by the empty
string.  `prev` is the character of the original string just before the current
scan position (the `\b` context survives a replacement because a global regex
keeps matching against the original string). -/
def removeAltsAux (alts : List (List Char)) : Nat → Option Char → List Char → List Char
  | 0, _, l => l
  | _ + 1, _, [] => []
  | fuel + 1, prev, x :: xs =>
    if (match prev with | none => true | some p => !isWordChar p) then
      match tryAlts alts (x :: xs) with
      | some n => removeAltsAux alts fuel (((x :: xs).take n).getLast?) (List.drop n (x :: xs))
      | none => x :: removeAltsAux alts fuel (some x) xs
    else x :: removeAltsAux alts fuel (some x) xs

/-- Model of the boundary-delimited location-phrase removal. -/
def removeLocations (l : List Char) : List Char :=
  removeAltsAux [strL "sf", strL "san francisco", strL "bay area"] l.length none l

/-- Model of the boundary-delimited award-winning-phrase removal. -/
def removeAward (l : List Char) : List Char :=
  removeAltsAux [strL "award winning", strL "awardwinning"] l.length none l

/-- Source function `normalizeText(text, options)` of the source, with the three option flags as
defaulted parameters. -/
def normalizeText (text : List Char) (stripColumnNames : Bool := true)
    (applyNormalizations : Bool := true) (removeStopWords : Bool := true) : List Char :=
  if text = [] then []
  else
    let workingText := if stripColumnNames then (parseColumnTitle text).coreTitle
                       else decodeHtmlEntities text
    let workingText := if applyNormalizations then applyTitleNormalizations workingText
                       else workingText
    let normalized := lowerL (rdropW isPunctCSC (punctToSpace (collapseWs (trimWs workingText))))
    let normalized :=
      if removeStopWords then
        removeAward (removeLocations (removePreps (dropLeadingArticle normalized)))
      else normalized
    trimWs (collapseWs2 normalized)

/-- Source function `detectFragment(shortTitle, longTitle)` of the source: falsy guard, jump-page
guard on the lowercased short title, then the permissive per-word matching for
short normalized titles and plain substring containment for longer ones. -/
def detectFragment (shortTitle longTitle : List Char) : Rat :=
  if shortTitle = [] ∨ longTitle = [] then 0
  else if containsSub commaFrom (lowerL shortTitle) then 0
  else
    let shortNorm := normalizeText shortTitle false
    let longNorm := normalizeText longTitle false
    if shortNorm.length < 15 then
      let shortWords := (splitWsL shortNorm).filter (fun w => w.length > 2)
      let longWords := (splitWsL longNorm).filter (fun w => w.length > 2)
      if shortWords = [] then 0
      else
        let matched := shortWords.filter (fun w =>
          longWords.any (fun lw =>
            containsSub w lw || containsSub lw w || stringSimilarity w lw > 8 / 10))
        (matched.length : Rat) / (shortWords.length : Rat)
    else if containsSub shortNorm longNorm then 9 / 10
    else if containsSub longNorm shortNorm then 9 / 10
    else 0

/-- Scan the body of a CDATA section: the lazy `(.*?)` grows one dot-character at
a time until the literal closer `]]>` matches.  Returns the captured body, or
`none` when a line terminator or the end of input is reached first. -/
def scanCdataBody : List Char → List Char → Option (List Char)
  | l, acc =>
    if (strL "]]>").isPrefixOf l then some acc.reverse
    else
      match l with
      | [] => none
      | c :: cs => if jsDot c then scanCdataBody cs (c :: acc) else none

/-- Leftmost match of the unanchored pattern `<!\[CDATA\[(.*?)\]\]>`
(`PATTERNS.cdataContent`), returning the capture. -/
def findCdataBody : List Char → Option (List Char)
  | [] => none
  | l@(_ :: xs) =>
    if (strL "<![CDATA[").isPrefixOf l then
      match scanCdataBody (l.drop 9) [] with
      | some body => some body
      | none => findCdataBody xs
    else findCdataBody xs

/-- Grow the lazy CDATA body one dot-character at a time. -/
def cdataFullAux : List Char → List Char → Option (List Char)
  | l, acc =>
    if (strL "]]>").isPrefixOf l ∧ (l.drop 3).all isWs then some acc.reverse
    else
      match l with
      | [] => none
      | c :: cs => if jsDot c then cdataFullAux cs (c :: acc) else none

/-- Full-string match of the anchored CDATA pattern (`PATTERNS.cdata`),
returning the capture: optional leading whitespace, the opener, a lazy
dot-only body grown by `cdataFullAux` until the first closer whose suffix is
all whitespace, then the end of the string. -/
def cdataFullMatch (l : List Char) : Option (List Char) :=
  let l1 := l.dropWhile isWs
  if (strL "<![CDATA[").isPrefixOf l1 then
    cdataFullAux (l1.drop 9) []
  else none

/-- Source function `extractCleanTitle(titleElement)` of the source, applied to the text content
of the element: CDATA unwrapping (full-match first, inner search second),
entity decoding, extra-space collapsing, trailing-punctuation stripping, trim. -/
def extractCleanTitle (text : List Char) : List Char :=
  let t1 :=
    match cdataFullMatch text with
    | some body => body
    | none =>
      match findCdataBody text with
      | some body => body
      | none => text
  let t2 := decodeHtmlEntities t1
  trimWs (rdropW isPunctCSC (collapseWs2 t2))

/-- A raw feed item, at the boundary where the source reads text out of the
parsed XML DOM.  Each field is the trimmed-or-raw text content the
corresponding `getElementsByTagName` lookup would produce (`none` when the
element is absent).  Two extraction steps that live outside the verified
claims are modeled as inputs rather than re-implemented: `fullByline` is the
name the five byline regexes of `extractItemMetadata` would produce from the
item `<full>` text (with their 2-4-token validation already applied), and
`pubDateMs` is the epoch-millisecond value `parsePublicationDate` would
return, `none` on failure, since `Date` parsing is a library concern. -/
structure RawItem where
  titleText : Option (List Char)
  linkText : Option (List Char)
  creatorText : Option (List Char)
  fullByline : Option (List Char)
  pubDateMs : Option Int
  descriptionText : Option (List Char)
  guidText : Option (List Char)
deriving DecidableEq

/-- The `ItemMetadata` record produced by `extractItemMetadata`. -/
structure ItemMeta where
  title : Option (List Char)
  parsedTitle : Option ParsedTitle
  link : Option (List Char)
  author : Option (List Char)
  extractedAuthor : Option (List Char)
  pubDate : Option Int
  description : Option (List Char)
  guid : Option (List Char)
deriving DecidableEq

/-- Source function `extractItemMetadata(item, feedType)` of the source: title and parsed title
are set together from the title element, the other fields are trimmed text. -/
def extractItemMetadata (it : RawItem) : ItemMeta :=
  let t := it.titleText.map extractCleanTitle
  { title := t
    parsedTitle := t.map parseColumnTitle
    link := it.linkText.map trimWs
    author := it.creatorText.map trimWs
    extractedAuthor := it.fullByline
    pubDate := it.pubDateMs
    description := it.descriptionText.map trimWs
    guid := it.guidText.map trimWs }

/-- One entry of the secondary indexes. -/
structure IndexedItem where
  metadata : ItemMeta
  normalizedFull : List Char
  normalizedCore : List Char
  author : List Char
  column : Option (List Char)
deriving DecidableEq

/-- An insertion-ordered association map from keys to insertion-ordered buckets,
the model of the JavaScript `Map`-of-arrays lookup structures. -/
abbrev AssocMap (β : Type) : Type := List (List Char × List β)

/-- Insert a value at a key: append to the existing bucket, or append a new
key with a singleton bucket, exactly like `map.get(k).push(v)` after a
`map.set(k, [])` on a missing key. -/
def mapInsert {β : Type} : AssocMap β → List Char → β → AssocMap β
  | [], k, v => [(k, [v])]
  | (k', b) :: rest, k, v =>
    if k' = k then (k', b ++ [v]) :: rest else (k', b) :: mapInsert rest k v

/-- Lookup, modeling `map.get(k) || []`. -/
def mapGet {β : Type} (m : AssocMap β) (k : List Char) : List β :=
  match m.find? (fun p => p.1 = k) with
  | some p => p.2
  | none => []

/-- The five lookup structures plus the item list built by `buildSecondaryIndexes`. -/
structure SecondaryIndexes where
  byNormalizedTitle : AssocMap IndexedItem
  byNormalizedCore : AssocMap IndexedItem
  byAuthor : AssocMap IndexedItem
  byColumn : AssocMap IndexedItem
  byFragment : AssocMap (IndexedItem × Rat)
  items : List IndexedItem

/-- The empty index set. -/
def emptyIndexes : SecondaryIndexes :=
  { byNormalizedTitle := [], byNormalizedCore := [], byAuthor := [],
    byColumn := [], byFragment := [], items := [] }

/-- The `IndexedItem` entry `buildSecondaryIndexes` constructs for one titled
secondary item. -/
def indexEntryOf (metadata : ItemMeta) : IndexedItem :=
  { metadata := metadata
    normalizedFull := normalizeText (optStr metadata.title) false
    normalizedCore := normalizeText (optStr (metadata.parsedTitle.map ParsedTitle.coreTitle)) false
    author := lowerL (optStr (orFalsy metadata.author metadata.extractedAuthor))
    column := (metadata.parsedTitle.bind ParsedTitle.columnName).map lowerL }

/-- Insert one entry into the five lookup structures: each map is keyed by the
corresponding field of the entry and skipped when that key is falsy (the core
map additionally requires the core to differ from the full title, and the
fragment map is keyed by the lowercased full column name of the detected
fragment). -/
def insertEntry (idx : SecondaryIndexes) (e : IndexedItem)
    (fragmentResult : Option FragmentResult) : SecondaryIndexes :=
  { items := idx.items ++ [e]
    byNormalizedTitle :=
      if e.normalizedFull ≠ [] then mapInsert idx.byNormalizedTitle e.normalizedFull e
      else idx.byNormalizedTitle
    byNormalizedCore :=
      if e.normalizedCore ≠ [] ∧ e.normalizedCore ≠ e.normalizedFull then
        mapInsert idx.byNormalizedCore e.normalizedCore e
      else idx.byNormalizedCore
    byAuthor := if e.author ≠ [] then mapInsert idx.byAuthor e.author e else idx.byAuthor
    byColumn :=
      match e.column with
      | some c => if c ≠ [] then mapInsert idx.byColumn c e else idx.byColumn
      | none => idx.byColumn
    byFragment :=
      match fragmentResult with
      | some fr => mapInsert idx.byFragment (lowerL fr.fullName) (e, fr.confidence)
      | none => idx.byFragment }

/-- One iteration of the `buildSecondaryIndexes` loop: skip items with a falsy
title, otherwise build the entry and insert it everywhere its keys are truthy. -/
def indexStep (idx : SecondaryIndexes) (item : RawItem) : SecondaryIndexes :=
  if !optTruthy (extractItemMetadata item).title then idx
  else
    insertEntry idx (indexEntryOf (extractItemMetadata item))
      (detectColumnFragment (optStr (extractItemMetadata item).title))

/-- Source function `buildSecondaryIndexes(secondaryItems)` of the source. -/
def buildSecondaryIndexes (secondaryItems : List RawItem) : SecondaryIndexes :=
  secondaryItems.foldl indexStep emptyIndexes

/-- The `MatchScore` record of `calculateMatchScore` (the `details` sub-object of
the source is logging-only and is not modeled). -/
structure MatchScore where
  titleSimilarity : Rat
  authorMatch : Rat
  columnMatch : Rat
  dateProximity : Rat
  fragmentBonus : Rat
  total : Rat
deriving DecidableEq

/-- The match strategies of the engine.  The source uses the strings
exact_full, exact_core, fragment_column, prefix_removed, reverse_prefix and
fuzzy; the fifth is spelled `reversePrefix` here. -/
inductive Strategy where
  | exact_full
  | exact_core
  | fragment_column
  | prefix_removed
  | reversePrefix
  | fuzzy
deriving DecidableEq

/-- The `MatchResult` record returned by `findBestMatch`. -/
structure MatchResult where
  matchItem : IndexedItem
  score : MatchScore
  strategy : Strategy
deriving DecidableEq

section MergeModel

/- Model of the floating-point `Math.exp` used (only) by the date-proximity
term of `calculateMatchScore`.  The real exponential is transcendental and not
shallowly embeddable over `Rat`; every theorem of this development is proved
for an arbitrary `expModel`, so nothing below depends on its values. -/
variable (expModel : Rat → Rat)

/-- Source function `calculateMatchScore(primary, secondary)` of the source. -/
def calculateMatchScore (primary secondary : ItemMeta) : MatchScore :=
  let titleColumn : Rat × Rat × Rat :=
    match primary.parsedTitle, secondary.parsedTitle with
    | some ppt, some spt =>
      let primaryCore := normalizeText ppt.coreTitle false
      let secondaryCore := normalizeText spt.coreTitle false
      let primaryFull := normalizeText (optStr primary.title) false
      let secondaryFull := normalizeText (optStr secondary.title) false
      let fragmentScore1 := detectFragment secondaryFull primaryFull
      let fragmentScore2 := detectFragment secondaryCore primaryCore
      let fragmentScore3 := detectFragment primaryCore secondaryFull
      let maxFragmentScore := max fragmentScore1 (max fragmentScore2 fragmentScore3)
      let titlePart : Rat × Rat :=
        if maxFragmentScore > fragmentMatchThreshold then (maxFragmentScore, columnMatchBonus)
        else if primaryCore = secondaryCore then (1, 0)
        else if (containsSub secondaryCore primaryCore ∧ secondaryCore.length > 10) ∨
                (containsSub primaryCore secondaryCore ∧ primaryCore.length > 10) then (19 / 20, 0)
        else (max (stringSimilarity primaryCore secondaryCore)
                  (wordOverlapSimilarity primaryCore secondaryCore), 0)
      let columnPart : Rat × Rat :=
        if optTruthy ppt.columnName ∧ optTruthy spt.columnName then
          let col1 := lowerL (optStr ppt.columnName)
          let col2 := lowerL (optStr spt.columnName)
          if col1 = col2 then (1, 0)
          else
            match detectColumnFragment (optStr secondary.title) with
            | some fr =>
              if lowerL fr.fullName = col1 then (fr.confidence, columnMatchBonus)
              else (stringSimilarity col1 col2, 0)
            | none => (stringSimilarity col1 col2, 0)
        else (0, 0)
      (titlePart.1, columnPart.1, titlePart.2 + columnPart.2)
    | _, _ => (0, 0, 0)
  let titleSimilarity := titleColumn.1
  let columnMatch := titleColumn.2.1
  let fragmentBonus := titleColumn.2.2
  let primaryAuthor := lowerL (optStr (orFalsy primary.author primary.extractedAuthor))
  let secondaryAuthor := lowerL (optStr (orFalsy secondary.author secondary.extractedAuthor))
  let authorMatch :=
    if primaryAuthor ≠ [] ∧ secondaryAuthor ≠ [] then
      if primaryAuthor = secondaryAuthor then 1
      else if containsSub secondaryAuthor primaryAuthor ∨ containsSub primaryAuthor secondaryAuthor then 8 / 10
      else stringSimilarity primaryAuthor secondaryAuthor
    else 0
  let dateProximity :=
    match primary.pubDate, secondary.pubDate with
    | some t1, some t2 =>
      let diffMs : Rat := ((t1 - t2 : Int).natAbs : Rat)
      let diffDays := diffMs / 86400000
      expModel (-diffDays / 7)
    | _, _ => 0
  { titleSimilarity := titleSimilarity
    authorMatch := authorMatch
    columnMatch := columnMatch
    dateProximity := dateProximity
    fragmentBonus := fragmentBonus
    total := titleSimilarity * titleSimilarityWeight + authorMatch * authorMatchWeight +
             columnMatch * columnMatchWeight + dateProximity * dateProximityWeight +
             fragmentBonus }

/-- The strategy cascade of `findBestMatch`, with the two normalized titles of
the primary item already computed. -/
def findBestMatchAux (pm : ItemMeta) (idx : SecondaryIndexes)
    (normalizedFull normalizedCore : List Char) : Option MatchResult :=
  match mapGet idx.byNormalizedTitle normalizedFull with
    | e :: _ =>
      some { matchItem := e, score := calculateMatchScore expModel pm e.metadata,
             strategy := Strategy.exact_full }
    | [] =>
      match mapGet idx.byNormalizedCore normalizedCore with
      | e :: _ =>
        some { matchItem := e, score := calculateMatchScore expModel pm e.metadata,
               strategy := Strategy.exact_core }
      | [] =>
        let fragStrategy :=
          if optTruthy (pm.parsedTitle.bind ParsedTitle.columnName) then
            let primaryColumnKey := lowerL (optStr (pm.parsedTitle.bind ParsedTitle.columnName))
            match (mapGet idx.byFragment primaryColumnKey).find? (fun fm => fm.2 > 8 / 10) with
            | some fm =>
              some { matchItem := fm.1, score := calculateMatchScore expModel pm fm.1.metadata,
                     strategy := Strategy.fragment_column }
            | none => none
          else none
        match fragStrategy with
        | some r => some r
        | none =>
          match idx.byNormalizedTitle.find? (fun p => p.1 = normalizedCore) with
          | some (_, e :: _) =>
            some { matchItem := e, score := calculateMatchScore expModel pm e.metadata,
                   strategy := Strategy.prefix_removed }
          | _ =>
            match idx.items.find? (fun c => c.normalizedCore = normalizedFull) with
            | some c =>
              some { matchItem := c, score := calculateMatchScore expModel pm c.metadata,
                     strategy := Strategy.reversePrefix }
            | none =>
              let best := idx.items.foldl
                (fun (acc : Option (IndexedItem × MatchScore)) c =>
                  let score := calculateMatchScore expModel pm c.metadata
                  if decide (score.total > fuzzyMatchThreshold) &&
                     (match acc with | none => true | some b => decide (score.total > b.2.total)) then
                    some (c, score)
                  else acc)
                none
              match best with
              | some (c, s) =>
                some { matchItem := c, score := s, strategy := Strategy.fuzzy }
              | none => none

/-- Source function `findBestMatch(primaryMetadata, secondaryIndexes)` of the source: the
six-strategy cascade, each strategy tried only when every earlier one
produced nothing. -/
def findBestMatch (pm : ItemMeta) (idx : SecondaryIndexes) : Option MatchResult :=
  if !optTruthy pm.title then none
  else
    findBestMatchAux expModel pm idx (normalizeText (optStr pm.title) false)
      (normalizeText (optStr (pm.parsedTitle.map ParsedTitle.coreTitle)) false)

end MergeModel

/-- Parse a maximal non-empty digit run at the head of the list, returning it
and the remainder. -/
def digitRun (l : List Char) : Option (List Char × List Char) :=
  let ds := l.takeWhile Char.isDigit
  if ds = [] then none else some (ds, l.dropWhile Char.isDigit)

/-- Lazy scan for the trailing art-id part of the template after the page
capture. -/
def matchIdTail (page : List Char) : List Char → Option (List Char × List Char)
  | [] => none
  | l@(_ :: xs) =>
    (if (strL "id=art_").isPrefixOf l then
      match digitRun (l.drop 7) with
      | some (artid, r) => if (strL ".xml").isPrefixOf r then some (page, artid) else none
      | none => none
    else none).orElse (fun _ => matchIdTail page xs)

/-- Try to match the middle of the `reformatNewsmemoryLink` template starting
at the page token, followed lazily by the art-id tail. -/
def matchPageTail : List Char → Option (List Char × List Char)
  | [] => none
  | l@(_ :: xs) =>
    (if (strL "page=").isPrefixOf l then
      match digitRun (l.drop 5) with
      | some (_, r1) =>
        if (strL "theark").isPrefixOf r1 then
          match digitRun (r1.drop 6) with
          | some (page, r2) => matchIdTail page r2
          | none => none
        else none
      | none => none
    else none).orElse (fun _ => matchPageTail xs)

/-- Leftmost match of `/date=(\d+).*?page=\d+theark(\d+).*?id=art_(\d+)\.xml/`,
returning the three captures. -/
def matchNewsmemoryTemplate : List Char → Option (List Char × List Char × List Char)
  | [] => none
  | l@(_ :: xs) =>
    (if (strL "date=").isPrefixOf l then
      match digitRun (l.drop 5) with
      | some (date, r) =>
        match matchPageTail r with
        | some (page, artid) => some (date, page, artid)
        | none => none
      | none => none
    else none).orElse (fun _ => matchNewsmemoryTemplate xs)

/-- The two-wide zero padding of `String.prototype.padStart`. -/
def padStart2 (l : List Char) : List Char :=
  if l.length ≥ 2 then l else List.replicate (2 - l.length) '0' ++ l

/-- Source function `reformatNewsmemoryLink(url)` of the source: rewrite a template-shaped
newsmemory URL into the short canonical form, pass anything else through
unchanged. -/
def reformatNewsmemoryLink (url : List Char) : List Char :=
  match matchNewsmemoryTemplate url with
  | some (date, page, artid) =>
    strL "https://thearknewspaper-ca.newsmemory.com?selDate=" ++ date ++
    strL "&goTo=" ++ padStart2 page ++ strL "&artid=" ++ artid ++
    strL "&editionStart=The%20Ark"
  | none => url

/-- The identity under which the merge loop tracks a consumed secondary item:
`metadata.guid || metadata.link || metadata.title`. -/
def secIdOf (m : ItemMeta) : List Char :=
  if optTruthy m.guid then optStr m.guid
  else if optTruthy m.link then optStr m.link
  else optStr m.title

/-- One accepted output item, carrying exactly the fields the verified claims
speak about: the emitted (clean) title, the rewritten link, the consumed
secondary identity, the normalized core title of the primary item, and the
strategy.
In the source the output item is the cloned primary DOM node with the title
text replaced by the clean title and the link replaced by the rewritten link. -/
structure OutputItem where
  title : List Char
  link : List Char
  secondaryId : List Char
  normalizedCore : List Char
  strategy : Strategy
deriving DecidableEq

/-- The mutable state of the `mergeFeeds` processing loop: the two consumed
sets, the accepted output in order, and the report counters. -/
structure MergeState where
  processedCores : List (List Char)
  usedSecondaryItems : List (List Char)
  output : List OutputItem
  exactMatches : Nat
  fuzzyMatches : Nat
  fragmentMatches : Nat
  noMatches : Nat
  duplicatesSkipped : Nat
deriving DecidableEq

/-- The state at the start of a run. -/
def initialMergeState : MergeState :=
  { processedCores := [], usedSecondaryItems := [], output := [],
    exactMatches := 0, fuzzyMatches := 0, fragmentMatches := 0,
    noMatches := 0, duplicatesSkipped := 0 }

/-- The normalized core title the merge loop computes for a primary item
(line 1459 of the source). -/
def normCoreOfMeta (metadata : ItemMeta) : List Char :=
  normalizeText (optStr (metadata.parsedTitle.map ParsedTitle.coreTitle)) false

section MergeLoop

variable (expModel : Rat → Rat)

/-- The accepting branch of the `mergeFeeds` processing loop: emit the item
with the rewritten link, mark the core title and the secondary identity as
consumed, and bump the per-strategy counter (the source counts
`prefix_removed` and `reverse_prefix` matches as fuzzy). -/
def acceptItem (st : MergeState) (metadata : ItemMeta) (mr : MatchResult)
    (normalizedCore : List Char) : MergeState :=
  { st with
    usedSecondaryItems := secIdOf mr.matchItem.metadata :: st.usedSecondaryItems
    output := st.output ++
      [{ title := optStr metadata.title
         link := reformatNewsmemoryLink (optStr mr.matchItem.metadata.link)
         secondaryId := secIdOf mr.matchItem.metadata
         normalizedCore := normalizedCore
         strategy := mr.strategy }]
    processedCores := normalizedCore :: st.processedCores
    exactMatches :=
      if mr.strategy = Strategy.exact_full ∨ mr.strategy = Strategy.exact_core then
        st.exactMatches + 1 else st.exactMatches
    fragmentMatches :=
      if mr.strategy = Strategy.fragment_column then st.fragmentMatches + 1
      else st.fragmentMatches
    fuzzyMatches :=
      if mr.strategy = Strategy.exact_full ∨ mr.strategy = Strategy.exact_core ∨
         mr.strategy = Strategy.fragment_column then st.fuzzyMatches
      else st.fuzzyMatches + 1 }

/-- One iteration of the `mergeFeeds` processing loop over a primary item:
skip titleless items; skip (counting a duplicate) when the normalized core
title was already accepted; run the match engine; skip (counting a duplicate)
when the matched secondary identity was already consumed; otherwise accept. -/
def processItem (idx : SecondaryIndexes) (st : MergeState) (item : RawItem) : MergeState :=
  if !optTruthy (extractItemMetadata item).title then st
  else if normCoreOfMeta (extractItemMetadata item) ∈ st.processedCores then
    { st with duplicatesSkipped := st.duplicatesSkipped + 1 }
  else
    match findBestMatch expModel (extractItemMetadata item) idx with
    | none => { st with noMatches := st.noMatches + 1 }
    | some mr =>
      if secIdOf mr.matchItem.metadata ∈ st.usedSecondaryItems then
        { st with duplicatesSkipped := st.duplicatesSkipped + 1 }
      else
        acceptItem st (extractItemMetadata item) mr
          (normCoreOfMeta (extractItemMetadata item))

/-- The whole `mergeFeeds` processing phase: build the secondary indexes once,
then fold the loop over the primary items in order. -/
def runMerge (primaryItems secondaryItems : List RawItem) : MergeState :=
  primaryItems.foldl (processItem expModel (buildSecondaryIndexes secondaryItems)) initialMergeState

/-- Whether the match engine, run on this item in this state, returns a match
whose secondary identity is already consumed (the condition of the second
duplicate skip of the loop). -/
def dupSecondaryHit (idx : SecondaryIndexes) (st : MergeState) (item : RawItem) : Bool :=
  match findBestMatch expModel (extractItemMetadata item) idx with
  | some mr => decide (secIdOf mr.matchItem.metadata ∈ st.usedSecondaryItems)
  | none => false

end MergeLoop

/-! Helper lemmas. -/

theorem containsSub_iff (pat l : List Char) : containsSub pat l = true ↔ pat <:+: l := by
  induction l with
  | nil =>
    simp only [containsSub, List.isEmpty_iff]
    constructor
    · rintro rfl; exact List.infix_rfl
    · intro h; exact List.eq_nil_of_infix_nil h
  | cons x xs ih =>
    simp only [containsSub, Bool.or_eq_true, List.isPrefixOf_iff_prefix, ih,
      List.infix_cons_iff]

theorem isPrefixOf_imp {l1 l2 : List Char} (h : l1.isPrefixOf l2 = true) : l1 <+: l2 := by
  exact List.isPrefixOf_iff_prefix.mp h

theorem infix_dropWhile_of_head_not {P : Char → Bool} {x : Char} {xs l : List Char}
    (hx : P x = false) (h : (x :: xs) <:+: l) : (x :: xs) <:+: l.dropWhile P := by
  induction l with
  | nil => exact absurd (List.eq_nil_of_infix_nil h) (by simp)
  | cons a l' ih =>
    rcases List.infix_cons_iff.mp h with hpre | hinf
    · have ha : x = a := (List.cons_prefix_cons.mp hpre).1
      subst ha
      rw [List.dropWhile_cons_of_neg (by simp [hx])]
      exact List.infix_cons_iff.mpr (Or.inl hpre)
    · by_cases hPa : P a = true
      · rw [List.dropWhile_cons_of_pos hPa]
        exact ih hinf
      · rw [List.dropWhile_cons_of_neg (by simpa using hPa)]
        exact List.infix_cons_iff.mpr (Or.inr hinf)

theorem infix_rdropW_of_rev {P : Char → Bool} {pat l : List Char} {y : Char} {ys : List Char}
    (hrev : pat.reverse = y :: ys) (hy : P y = false) (h : pat <:+: l) :
    pat <:+: rdropW P l := by
  have hrevinf : pat.reverse <:+: l.reverse := List.reverse_infix.mpr h
  rw [hrev] at hrevinf
  have hdrop : (y :: ys) <:+: l.reverse.dropWhile P :=
    infix_dropWhile_of_head_not hy hrevinf
  rw [← hrev] at hdrop
  have h2 : pat <:+: (l.reverse.dropWhile P).reverse :=
    List.reverse_infix.mp (by rw [List.reverse_reverse]; exact hdrop)
  simpa [rdropW] using h2

/-- The comma-from marker survives the preprocessing of `detectColumnFragment`
(trailing punctuation strip and trim), because its first character is not
whitespace and its last character is neither punctuation nor whitespace. -/
theorem commaFrom_survives_cleanup {s : List Char}
    (h : containsSub commaFrom s = true) :
    containsSub commaFrom (trimWs (rdropW isPunctCSC s)) = true := by
  have hinf : commaFrom <:+: s := (containsSub_iff _ _).mp h
  have hrev : commaFrom.reverse = 'm' :: strL "orf ," := by decide
  have hcons : commaFrom = ',' :: strL " from" := by decide
  have h1 : commaFrom <:+: rdropW isPunctCSC s :=
    infix_rdropW_of_rev hrev (by decide) hinf
  have h2 : commaFrom <:+: (rdropW isPunctCSC s).dropWhile isWs := by
    rw [hcons] at h1 ⊢
    exact infix_dropWhile_of_head_not (by decide) h1
  have h3 : commaFrom <:+: trimWs (rdropW isPunctCSC s) :=
    infix_rdropW_of_rev hrev (by decide) h2
  exact (containsSub_iff _ _).mpr h3

/-- C8: a title containing the jump-page continuation marker (a comma followed
by " from", case-insensitively) is returned score 0 by `detectFragment`
whenever it is the short text, and `detectColumnFragment` returns `null` for
it, so it can never become a column-fragment match candidate. -/
theorem c8_jump_page_exclusion (s t : List Char)
    (h : containsSub commaFrom (lowerL s) = true) :
    detectFragment s t = 0 ∧ detectColumnFragment s = none := by
  constructor
  · unfold detectFragment
    split
    · rfl
    · simp [h]
  · unfold detectColumnFragment
    split
    · rfl
    · simp [commaFrom_survives_cleanup h]

/-- C8 witness: the spec scenario title "Encounters, from page 3" is excluded
from both fragment detectors. -/
theorem c8_witness :
    detectFragment (strL "Encounters, from page 3") (strL "Everyday Encounters") = 0 ∧
    detectColumnFragment (strL "Encounters, from page 3") = none :=
  c8_jump_page_exclusion (strL "Encounters, from page 3") (strL "Everyday Encounters")
    (by decide)

/-- C2 counterexample: `normalize` with default options is not idempotent.
At the input "sta" the abbreviation rule for "st." (whose regex dot matches
any character) rewrites the string to "street", and re-normalizing "street"
fires the same rule again on its prefix "str", giving "streeteet". -/
theorem c2_counterexample :
    ¬ ∀ s : List Char, normalizeText (normalizeText s) = normalizeText s :=
  fun hall => absurd (hall (strL "sta")) (by decide)

/-- C2 amended: normalization is not idempotent; the `TITLE_NORMALIZATIONS`
abbreviation keys "st.", "rd." and "ave." are compiled as regexes in which the
dot matches any character, so a normalized output can be rewritten again.
Concretely, "sta" normalizes to "street", which re-normalizes to "streeteet". -/
theorem c2_amended :
    normalizeText (strL "sta") = strL "street" ∧
    normalizeText (strL "street") = strL "streeteet" ∧
    normalizeText (normalizeText (strL "sta")) ≠ normalizeText (strL "sta") := by
  refine ⟨by decide, by decide, by decide⟩

/-- C3 counterexample: on two empty strings `stringSimilarity` returns 0, not
the 1 the claim states, because the falsy guard `!str1 || !str2` fires before
the degenerate-case branch (which is unreachable). -/
theorem c3_counterexample :
    stringSimilarity [] [] = 0 ∧ stringSimilarity [] [] ≠ 1 :=
  ⟨by decide, by decide⟩

/-- C3 amended: `stringSimilarity` returns 0 whenever either input is empty
(including both empty), 1 for identical non-empty strings, and otherwise one
minus the edit distance divided by the longer length; the `maxLength === 0`
convention branch of the source is dead code. -/
theorem c3_amended (s t : List Char) :
    ((s = [] ∨ t = []) → stringSimilarity s t = 0) ∧
    (s ≠ [] → t ≠ [] → s = t → stringSimilarity s t = 1) ∧
    (s ≠ [] → t ≠ [] → s ≠ t →
      stringSimilarity s t =
        1 - (levenshteinDistance s t : Rat) / ((Nat.max s.length t.length : Nat) : Rat)) := by
  refine ⟨?_, ?_, ?_⟩
  · intro h
    unfold stringSimilarity
    rw [if_pos h]
  · intro hs ht heq
    unfold stringSimilarity
    rw [if_neg (by tauto), if_pos heq]
  · intro hs ht hne
    have hm : Nat.max s.length t.length ≠ 0 := by
      have h1 : s.length ≠ 0 := by simpa using hs
      have h2 : s.length ≤ Nat.max s.length t.length := Nat.le_max_left _ _
      omega
    unfold stringSimilarity
    rw [if_neg (by tauto), if_neg hne]
    show (if Nat.max s.length t.length = 0 then (1 : Rat) else _) = _
    rw [if_neg hm]

/-- C3 witness: the non-degenerate branch at a concrete pair of distinct
non-empty strings. -/
theorem c3_witness :
    strL "kitten" ≠ [] ∧ strL "sitting" ≠ [] ∧ strL "kitten" ≠ strL "sitting" ∧
    stringSimilarity (strL "kitten") (strL "sitting") =
      1 - (levenshteinDistance (strL "kitten") (strL "sitting") : Rat) /
          ((Nat.max (strL "kitten").length (strL "sitting").length : Nat) : Rat) :=
  ⟨by decide, by decide, by decide,
   (c3_amended (strL "kitten") (strL "sitting")).2.2 (by decide) (by decide) (by decide)⟩

theorem mem_jsSetOf : ∀ (l : List (List Char)) (a : List Char), a ∈ jsSetOf l ↔ a ∈ l := by
  intro l
  induction l using jsSetOf.induct with
  | case1 => intro a; simp [jsSetOf]
  | case2 x xs ih =>
    intro a
    rw [jsSetOf]
    by_cases hax : a = x
    · subst hax; simp
    · simp only [List.mem_cons, ih, List.mem_filter]
      constructor
      · rintro (rfl | ⟨hmem, _⟩)
        · exact Or.inl rfl
        · exact Or.inr hmem
      · rintro (rfl | hmem)
        · exact Or.inl rfl
        · exact Or.inr ⟨hmem, by simpa using hax⟩

theorem nodup_jsSetOf : ∀ l : List (List Char), (jsSetOf l).Nodup := by
  intro l
  induction l using jsSetOf.induct with
  | case1 => simp [jsSetOf]
  | case2 x xs ih =>
    rw [jsSetOf]
    refine List.Nodup.cons ?_ ih
    intro hmem
    have := (mem_jsSetOf _ _).mp hmem
    simp at this

theorem toFinset_jsSetOf (l : List (List Char)) : (jsSetOf l).toFinset = l.toFinset := by
  ext a
  simp [mem_jsSetOf]

theorem length_jsSetOf (l : List (List Char)) : (jsSetOf l).length = l.toFinset.card := by
  rw [← toFinset_jsSetOf, List.toFinset_card_of_nodup (nodup_jsSetOf l)]

/-- C4 counterexample: at two empty input strings both token sets are empty, so
the claim demands a Jaccard value of 1, but the falsy input guard of
`wordOverlapSimilarity` returns 0 first. -/
theorem c4_counterexample :
    tokensOf [] = [] ∧ wordOverlapSimilarity [] [] ≠ 1 :=
  ⟨by decide, by decide⟩

/-- The Jaccard branch of `wordOverlapSimilarity`, rewritten from the
deduplicated-list computation of the source to set cardinalities. -/
theorem wordOverlap_eq_jaccard (s t : List Char) (hs : s ≠ []) (ht : t ≠ [])
    (hw1 : tokensOf s ≠ []) (hw2 : tokensOf t ≠ []) :
    wordOverlapSimilarity s t =
      (((tokensOf s).toFinset ∩ (tokensOf t).toFinset).card : Rat) /
      (((tokensOf s).toFinset ∪ (tokensOf t).toFinset).card : Rat) := by
  simp only [wordOverlapSimilarity]
  rw [if_neg (by tauto), if_neg (by tauto), if_neg (by tauto)]
  have hinter :
      (jsSetOf ((jsSetOf (tokensOf s)).filter (fun x => x ∈ jsSetOf (tokensOf t)))).length =
        ((tokensOf s).toFinset ∩ (tokensOf t).toFinset).card := by
    rw [length_jsSetOf, List.toFinset_filter]
    congr 1
    rw [toFinset_jsSetOf]
    rw [show ((tokensOf s).toFinset.filter fun x => decide (x ∈ jsSetOf (tokensOf t))) =
          ((tokensOf s).toFinset.filter fun x => x ∈ (tokensOf t).toFinset) from
        Finset.filter_congr (fun x _ => by simp [mem_jsSetOf])]
    exact Finset.filter_mem_eq_inter
  have huni :
      (jsSetOf (jsSetOf (tokensOf s) ++ jsSetOf (tokensOf t))).length =
        ((tokensOf s).toFinset ∪ (tokensOf t).toFinset).card := by
    rw [length_jsSetOf, List.toFinset_append, toFinset_jsSetOf, toFinset_jsSetOf]
  simp only [hinter, huni]

/-- C4 amended: for non-empty input strings, `wordOverlapSimilarity` is the
Jaccard index of the sets of lowercased whitespace-delimited tokens longer
than two characters, with the stated conventions for empty token sets; for an
empty input string, however, the falsy guard returns 0 regardless of the
token sets. -/
theorem c4_amended (s t : List Char) (hs : s ≠ []) (ht : t ≠ []) :
    ((tokensOf s).toFinset = ∅ → (tokensOf t).toFinset = ∅ → wordOverlapSimilarity s t = 1) ∧
    (((tokensOf s).toFinset = ∅ ∧ (tokensOf t).toFinset ≠ ∅) ∨
     ((tokensOf s).toFinset ≠ ∅ ∧ (tokensOf t).toFinset = ∅) → wordOverlapSimilarity s t = 0) ∧
    ((tokensOf s).toFinset ≠ ∅ → (tokensOf t).toFinset ≠ ∅ →
      wordOverlapSimilarity s t =
        (((tokensOf s).toFinset ∩ (tokensOf t).toFinset).card : Rat) /
        (((tokensOf s).toFinset ∪ (tokensOf t).toFinset).card : Rat)) := by
  refine ⟨?_, ?_, ?_⟩
  · intro h1 h2
    rw [List.toFinset_eq_empty_iff] at h1 h2
    simp only [wordOverlapSimilarity]
    rw [if_neg (by tauto), if_pos ⟨h1, h2⟩]
  · intro h
    simp only [ne_eq, List.toFinset_eq_empty_iff] at h
    simp only [wordOverlapSimilarity]
    rcases h with ⟨h1, h2⟩ | ⟨h1, h2⟩ <;>
      rw [if_neg (by tauto), if_neg (by tauto), if_pos (by tauto)]
  · intro h1 h2
    simp only [ne_eq, List.toFinset_eq_empty_iff] at h1 h2
    exact wordOverlap_eq_jaccard s t hs ht h1 h2

/-- C4 witness: the Jaccard branch at a concrete pair with intersection size 2
and union size 4. -/
theorem c4_witness :
    wordOverlapSimilarity (strL "city council votes") (strL "council city budget") =
      (((tokensOf (strL "city council votes")).toFinset ∩
        (tokensOf (strL "council city budget")).toFinset).card : Rat) /
      (((tokensOf (strL "city council votes")).toFinset ∪
        (tokensOf (strL "council city budget")).toFinset).card : Rat) :=
  (c4_amended (strL "city council votes") (strL "council city budget")
    (by decide) (by decide)).2.2 (by decide) (by decide)

/-! Lemmas on the column-title splitters, used to settle C9. -/

theorem rdropW_prefix_self (P : Char → Bool) (l : List Char) : rdropW P l <+: l := by
  have h1 : l.reverse.dropWhile P <:+ l.reverse := List.dropWhile_suffix P
  have h2 := List.reverse_prefix.mpr h1
  rwa [List.reverse_reverse] at h2

theorem dropWhile_eq_self_of_prefixed {P : Char → Bool} {X Y : List Char}
    (hXY : Y <+: X) (hX : X.dropWhile P = X) : Y.dropWhile P = Y := by
  cases Y with
  | nil => rfl
  | cons y ys =>
    obtain ⟨r, hr⟩ := hXY
    by_cases hy : P y = true
    · exfalso
      have hXcons : X = y :: (ys ++ r) := by rw [← hr]; rfl
      have hdw : X.dropWhile P = (ys ++ r).dropWhile P := by
        rw [hXcons, List.dropWhile_cons_of_pos hy]
      have hlen := congrArg List.length (hX.symm.trans hdw)
      have hle : ((ys ++ r).dropWhile P).length ≤ (ys ++ r).length :=
        (List.dropWhile_suffix P).length_le
      rw [hXcons] at hlen
      simp only [List.length_cons] at hlen
      omega
    · rw [List.dropWhile_cons_of_neg hy]

theorem dropWhile_self_of_dropWhile : ∀ (P : Char → Bool) (l : List Char),
    (l.dropWhile P).dropWhile P = l.dropWhile P := by
  intro P l
  induction l with
  | nil => rfl
  | cons x xs ih =>
    by_cases hx : P x = true
    · rw [List.dropWhile_cons_of_pos hx]
      exact ih
    · rw [List.dropWhile_cons_of_neg hx, List.dropWhile_cons_of_neg hx]

theorem trimWs_no_leading (l : List Char) : (trimWs l).dropWhile isWs = trimWs l := by
  unfold trimWs
  exact dropWhile_eq_self_of_prefixed (rdropW_prefix_self isWs (l.dropWhile isWs))
    (dropWhile_self_of_dropWhile isWs l)

theorem columnSplitOne_spec {cleanTitle col c core : List Char}
    (h : columnSplitOne cleanTitle col = some (c, core)) :
    c = col ∧ core ≠ [] ∧ lowerL col <+: lowerL cleanTitle := by
  unfold columnSplitOne at h
  split_ifs at h with h1 h2
  · obtain ⟨rfl, rfl⟩ : col = c ∧ trimWs (cleanTitle.drop (col.length + 1)) = core := by
      simpa using h
    exact ⟨rfl, h1.2,
      (List.prefix_append (lowerL col) [':']).trans (isPrefixOf_imp h1.1)⟩
  · obtain ⟨rfl, rfl⟩ : col = c ∧ trimWs (cleanTitle.drop (col.length + 1)) = core := by
      simpa using h
    exact ⟨rfl, h2.2,
      (List.prefix_append (lowerL col) [' ']).trans (isPrefixOf_imp h2.1)⟩

theorem prefixSplitOne_spec {cleanTitle p c core : List Char}
    (h : prefixSplitOne cleanTitle p = some (c, core)) :
    c = p ∧ core ≠ [] ∧ lowerL p <+: lowerL cleanTitle := by
  unfold prefixSplitOne at h
  split_ifs at h with h1
  · obtain ⟨rfl, rfl⟩ : p = c ∧ trimWs (cleanTitle.drop (p.length + 1)) = core := by
      simpa using h
    exact ⟨rfl, h1.2,
      (List.prefix_append (lowerL p) [':']).trans (isPrefixOf_imp h1.1)⟩

theorem genericColonSplit_spec {cleanTitle p core : List Char}
    (hclean : cleanTitle.dropWhile isWs = cleanTitle)
    (h : genericColonSplit cleanTitle = some (p, core)) :
    core ≠ [] ∧ lowerL p <+: lowerL cleanTitle := by
  unfold genericColonSplit at h
  split at h
  · exact absurd h (by simp)
  · rename_i i hi
    split_ifs at h with h1 h2
    · obtain ⟨rfl, rfl⟩ : trimWs (cleanTitle.take i) = p ∧ trimWs (cleanTitle.drop (i + 1)) = core := by
        simpa using h
      constructor
      · intro hc
        rw [hc] at h2
        simp at h2
      · have htake : cleanTitle.take i <+: cleanTitle := List.take_prefix i cleanTitle
        have hdw : (cleanTitle.take i).dropWhile isWs = cleanTitle.take i :=
          dropWhile_eq_self_of_prefixed htake hclean
        have hp : trimWs (cleanTitle.take i) <+: cleanTitle.take i := by
          unfold trimWs
          rw [hdw]
          exact rdropW_prefix_self isWs (cleanTitle.take i)
        exact (hp.trans htake).map Char.toLower

/-- C9 counterexample: the ParsedTitle invariant "if columnName is set,
fullTitle starts with it" fails.  A recognized column fragment gets the
canonical full column name, which is longer than the title itself
("Encounters" maps to "Everyday Encounters"); and the known-column prefix
test is case-insensitive, so the stored canonical casing need not literally
prefix the title ("garden plot: ..." gets columnName "Garden Plot"). -/
theorem c9_counterexample :
    ((parseColumnTitle (strL "Encounters")).columnName = some (strL "Everyday Encounters") ∧
     (strL "Everyday Encounters").isPrefixOf
       (parseColumnTitle (strL "Encounters")).fullTitle = false) ∧
    ((parseColumnTitle (strL "garden plot: Roses in Bloom")).columnName =
       some (strL "Garden Plot") ∧
     (strL "Garden Plot").isPrefixOf
       (parseColumnTitle (strL "garden plot: Roses in Bloom")).fullTitle = false) :=
  ⟨⟨by decide, by decide⟩, ⟨by decide, by decide⟩⟩

/-- Invariants of `parseColumnTitleClean` on a leading-whitespace-free input:
the core title is non-empty whenever the full title is, and every non-fragment
path stores a column name that case-insensitively prefixes the full title. -/
theorem parseColumnTitleClean_spec (clean : List Char)
    (hclean : clean.dropWhile isWs = clean) :
    ((parseColumnTitleClean clean).fullTitle ≠ [] →
      (parseColumnTitleClean clean).coreTitle ≠ []) ∧
    (∀ c, (parseColumnTitleClean clean).isFragment = false →
      (parseColumnTitleClean clean).columnName = some c →
      lowerL c <+: lowerL (parseColumnTitleClean clean).fullTitle) := by
  unfold parseColumnTitleClean
  split
  · exact ⟨fun h => h, fun c hfrag _ => by simp at hfrag⟩
  · split
    · rename_i hfind
      obtain ⟨col, _, hone⟩ := List.exists_of_findSome?_eq_some hfind
      obtain ⟨rfl, hcore, hpre⟩ := columnSplitOne_spec hone
      refine ⟨fun _ => hcore, fun c _ hc => ?_⟩
      obtain rfl := Option.some.inj hc
      simpa using hpre
    · split
      · rename_i hfind
        obtain ⟨p, _, hone⟩ := List.exists_of_findSome?_eq_some hfind
        obtain ⟨rfl, hcore, hpre⟩ := prefixSplitOne_spec hone
        refine ⟨fun _ => hcore, fun c _ hc => ?_⟩
        obtain rfl := Option.some.inj hc
        simpa using hpre
      · split
        · rename_i hgen
          obtain ⟨hcore, hpre⟩ := genericColonSplit_spec hclean hgen
          refine ⟨fun _ => hcore, fun c _ hc => ?_⟩
          obtain rfl := Option.some.inj hc
          simpa using hpre
        · exact ⟨fun h => h, fun c _ hc => by simp at hc⟩

/-- C9 amended: for every title, `coreTitle` is non-empty whenever `fullTitle`
is non-empty; and whenever `columnName` is set by a non-fragment path, the
full title starts with the column name up to letter case.  On the fragment
path `columnName` is the canonical full column name of the detected fragment
and need not be a prefix of the title at all. -/
theorem c9_amended (t : List Char) :
    ((parseColumnTitle t).fullTitle ≠ [] → (parseColumnTitle t).coreTitle ≠ []) ∧
    (∀ c, (parseColumnTitle t).isFragment = false →
      (parseColumnTitle t).columnName = some c →
      lowerL c <+: lowerL (parseColumnTitle t).fullTitle) := by
  unfold parseColumnTitle
  split
  · exact ⟨fun h => h, fun c _ hc => by simp at hc⟩
  · exact parseColumnTitleClean_spec (trimWs t) (trimWs_no_leading t)

/-- C9 witness: the amended invariant at a concrete prefixed title. -/
theorem c9_witness :
    (parseColumnTitle (strL "garden plot: Roses in Bloom")).coreTitle ≠ [] ∧
    lowerL (strL "Garden Plot") <+:
      lowerL (parseColumnTitle (strL "garden plot: Roses in Bloom")).fullTitle :=
  ⟨(c9_amended (strL "garden plot: Roses in Bloom")).1 (by decide),
   (c9_amended (strL "garden plot: Roses in Bloom")).2 (strL "Garden Plot")
     (by decide) (by decide)⟩

/-! Invariant of the by-normalized-full-title index, used to settle C5. -/

/-- Every pair of the by-title map has a non-empty key, a non-empty bucket, and
only entries whose `normalizedFull` equals the key. -/
abbrev titleMapWF (m : AssocMap IndexedItem) : Prop :=
  ∀ p ∈ m, p.1 ≠ [] ∧ p.2 ≠ [] ∧ ∀ e ∈ p.2, e.normalizedFull = p.1

theorem mapInsert_titleWF {m : AssocMap IndexedItem} {k : List Char} {v : IndexedItem}
    (hm : titleMapWF m) (hk : k ≠ []) (hv : v.normalizedFull = k) :
    titleMapWF (mapInsert m k v) := by
  induction m with
  | nil =>
    intro p hp
    simp only [mapInsert, List.mem_singleton] at hp
    subst hp
    exact ⟨hk, by simp, by intro e he; simp at he; subst he; exact hv⟩
  | cons q rest ih =>
    intro p hp
    rw [show mapInsert (q :: rest) k v =
          if q.1 = k then (q.1, q.2 ++ [v]) :: rest else q :: mapInsert rest k v from rfl] at hp
    split_ifs at hp with hq
    · rcases List.mem_cons.mp hp with rfl | hmem
      · obtain ⟨h1, _, h3⟩ := hm q (List.mem_cons_self q rest)
        refine ⟨h1, by simp, ?_⟩
        intro e he
        rcases List.mem_append.mp he with he1 | he2
        · exact h3 e he1
        · simp only [List.mem_singleton] at he2
          subst he2
          rw [hv, hq]
      · exact hm p (List.mem_cons_of_mem q hmem)
    · rcases List.mem_cons.mp hp with rfl | hmem
      · exact hm p (List.mem_cons_self p rest)
      · exact ih (fun r hr => hm r (List.mem_cons_of_mem q hr)) p hmem

theorem insertEntry_titleWF {idx : SecondaryIndexes} {e : IndexedItem}
    {fr : Option FragmentResult} (h : titleMapWF idx.byNormalizedTitle) :
    titleMapWF (insertEntry idx e fr).byNormalizedTitle := by
  unfold insertEntry
  dsimp only
  split_ifs with hne
  · exact mapInsert_titleWF h hne rfl
  · exact h

theorem indexStep_titleWF {idx : SecondaryIndexes} {item : RawItem}
    (h : titleMapWF idx.byNormalizedTitle) :
    titleMapWF (indexStep idx item).byNormalizedTitle := by
  unfold indexStep
  split
  · exact h
  · exact insertEntry_titleWF h

theorem buildSecondaryIndexes_titleWF (secondaryItems : List RawItem) :
    titleMapWF (buildSecondaryIndexes secondaryItems).byNormalizedTitle := by
  have hgen : ∀ (l : List RawItem) (idx : SecondaryIndexes),
      titleMapWF idx.byNormalizedTitle →
      titleMapWF (l.foldl indexStep idx).byNormalizedTitle := by
    intro l
    induction l with
    | nil => exact fun idx h => h
    | cons a l ih => exact fun idx h => ih _ (indexStep_titleWF h)
  exact hgen secondaryItems emptyIndexes (by intro p hp; simp [emptyIndexes] at hp)

/-- The entries reachable through the by-normalized-full-title lookup mapping. -/
def indexedUnderTitle (idx : SecondaryIndexes) : List IndexedItem :=
  (idx.byNormalizedTitle.map Prod.snd).flatten

theorem normalizeText_nil (b1 b2 b3 : Bool) : normalizeText [] b1 b2 b3 = [] := by
  simp [normalizeText]

/-- C5: whenever some secondary item indexed in the by-normalized-full-title
mapping has normalized full title equal to the normalized full title of the
primary item, `findBestMatch` returns a match and its strategy is `exact_full` —
never `fuzzy` — because the cascade returns at its first strategy before any
score is compared. -/
theorem c5_exact_full_priority (expModel : Rat → Rat) (pm : ItemMeta)
    (secondaryItems : List RawItem)
    (h : ∃ e ∈ indexedUnderTitle (buildSecondaryIndexes secondaryItems),
          e.normalizedFull = normalizeText (optStr pm.title) false) :
    ∃ mr, findBestMatch expModel pm (buildSecondaryIndexes secondaryItems) = some mr ∧
          mr.strategy = Strategy.exact_full := by
  obtain ⟨e, hmem, hkey⟩ := h
  have hwf := buildSecondaryIndexes_titleWF secondaryItems
  obtain ⟨b, hb, heb⟩ := List.mem_flatten.mp hmem
  obtain ⟨p, hp, rfl⟩ := List.mem_map.mp hb
  have hkeyp : p.1 = normalizeText (optStr pm.title) false := by
    rw [← hkey]
    exact ((hwf p hp).2.2 e heb).symm
  have hfind : ((buildSecondaryIndexes secondaryItems).byNormalizedTitle.find?
      (fun q => q.1 = normalizeText (optStr pm.title) false)).isSome := by
    rw [List.find?_isSome]
    exact ⟨p, hp, by simp [hkeyp]⟩
  obtain ⟨q, hq⟩ := Option.isSome_iff_exists.mp hfind
  have hqmem := List.mem_of_find?_eq_some hq
  have hqkey : q.1 = normalizeText (optStr pm.title) false := by
    have := List.find?_some hq
    simpa using this
  obtain ⟨hq1, hq2, _⟩ := hwf q hqmem
  have hget : mapGet (buildSecondaryIndexes secondaryItems).byNormalizedTitle
      (normalizeText (optStr pm.title) false) = q.2 := by
    unfold mapGet
    rw [hq]
  have hpmtitle : optTruthy pm.title = true := by
    have hnf : normalizeText (optStr pm.title) false ≠ [] := by rw [← hqkey]; exact hq1
    rcases hpm : pm.title with _ | l
    · exact absurd (by rw [hpm] at hnf; simpa [optStr] using hnf) (by simp [normalizeText_nil])
    · have hl : l ≠ [] := by
        intro hl0
        rw [hpm, hl0] at hnf
        exact hnf (by simpa [optStr] using normalizeText_nil false true true)
      simp [optTruthy, hl]
  obtain ⟨e2, rest, hq2eq⟩ := List.exists_cons_of_ne_nil hq2
  have hres : findBestMatch expModel pm (buildSecondaryIndexes secondaryItems) =
      some { matchItem := e2, score := calculateMatchScore expModel pm e2.metadata,
             strategy := Strategy.exact_full } := by
    unfold findBestMatch
    rw [hpmtitle]
    rw [if_neg (by simp)]
    unfold findBestMatchAux
    rw [hget, hq2eq]
  exact ⟨_, hres, rfl⟩

/-- A concrete secondary feed item used to exercise the exact-full strategy. -/
def c5SecItem : RawItem :=
  { titleText := some (strL "City Council Votes on Budget")
    linkText := some (strL "https://thearknewspaper-ca.newsmemory.com/a")
    creatorText := none, fullByline := none, pubDateMs := none
    descriptionText := none, guidText := none }

/-- A concrete primary feed item with the same normalized full title. -/
def c5PrimItem : RawItem :=
  { titleText := some (strL "City Council Votes on Budget")
    linkText := some (strL "https://www.thearknewspaper.com/post/b")
    creatorText := none, fullByline := none, pubDateMs := none
    descriptionText := none, guidText := none }

/-- C5 witness: the exact-full priority at a concrete one-item index. -/
theorem c5_witness :
    (∃ e ∈ indexedUnderTitle (buildSecondaryIndexes [c5SecItem]),
        e.normalizedFull =
          normalizeText (optStr (extractItemMetadata c5PrimItem).title) false) ∧
    (∃ mr, findBestMatch (fun _ => 0) (extractItemMetadata c5PrimItem)
            (buildSecondaryIndexes [c5SecItem]) = some mr ∧
           mr.strategy = Strategy.exact_full) :=
  ⟨by decide,
   c5_exact_full_priority (fun _ => 0) (extractItemMetadata c5PrimItem) [c5SecItem]
     (by decide)⟩

/-! The invariant of the merge loop, used to settle C6 and C7. -/

/-- Invariant carried through the processing loop: the accepted output has
pairwise distinct secondary identities, all recorded in the consumed-identity
set, and pairwise distinct normalized core titles, all recorded in the
consumed-core set. -/
def mergeInv (st : MergeState) : Prop :=
  (st.output.map OutputItem.secondaryId).Nodup ∧
  (∀ o ∈ st.output, o.secondaryId ∈ st.usedSecondaryItems) ∧
  (st.output.map OutputItem.normalizedCore).Nodup ∧
  (∀ o ∈ st.output, o.normalizedCore ∈ st.processedCores)

theorem acceptItem_inv {st : MergeState} {md : ItemMeta} {mr : MatchResult}
    {normalizedCore : List Char} (h : mergeInv st)
    (hid : secIdOf mr.matchItem.metadata ∉ st.usedSecondaryItems)
    (hcore : normalizedCore ∉ st.processedCores) :
    mergeInv (acceptItem st md mr normalizedCore) := by
  obtain ⟨h1, h2, h3, h4⟩ := h
  refine ⟨?_, ?_, ?_, ?_⟩
  · have hnotin : secIdOf mr.matchItem.metadata ∉ st.output.map OutputItem.secondaryId := by
      intro hmem
      obtain ⟨o, ho, hoeq⟩ := List.mem_map.mp hmem
      exact hid (hoeq ▸ h2 o ho)
    simpa [acceptItem, List.nodup_append] using
      ⟨h1, fun x hx hx2 => hnotin (hx2 ▸ List.mem_map_of_mem OutputItem.secondaryId hx)⟩
  · intro o ho
    rcases List.mem_append.mp ho with ho1 | ho2
    · exact List.mem_cons_of_mem _ (h2 o ho1)
    · simp only [List.mem_singleton] at ho2
      subst ho2
      exact List.mem_cons_self _ _
  · have hnotin : normalizedCore ∉ st.output.map OutputItem.normalizedCore := by
      intro hmem
      obtain ⟨o, ho, hoeq⟩ := List.mem_map.mp hmem
      exact hcore (hoeq ▸ h4 o ho)
    simpa [acceptItem, List.nodup_append] using
      ⟨h3, fun x hx hx2 => hnotin (hx2 ▸ List.mem_map_of_mem OutputItem.normalizedCore hx)⟩
  · intro o ho
    rcases List.mem_append.mp ho with ho1 | ho2
    · exact List.mem_cons_of_mem _ (h4 o ho1)
    · simp only [List.mem_singleton] at ho2
      subst ho2
      exact List.mem_cons_self _ _

theorem processItem_inv (expModel : Rat → Rat) (idx : SecondaryIndexes)
    (st : MergeState) (item : RawItem) (h : mergeInv st) :
    mergeInv (processItem expModel idx st item) := by
  unfold processItem
  split_ifs with h1 h2
  · exact h
  · exact h
  · split
    · exact h
    · rename_i mr _
      split_ifs with h3
      · exact h
      · exact acceptItem_inv h h3 h2

theorem runMerge_inv (expModel : Rat → Rat) (primaryItems secondaryItems : List RawItem) :
    mergeInv (runMerge expModel primaryItems secondaryItems) := by
  have hgen : ∀ (l : List RawItem) (st : MergeState), mergeInv st →
      mergeInv (l.foldl (processItem expModel (buildSecondaryIndexes secondaryItems)) st) := by
    intro l
    induction l with
    | nil => exact fun st h => h
    | cons a l ih => exact fun st h => ih _ (processItem_inv _ _ st a h)
  exact hgen primaryItems initialMergeState (by refine ⟨by simp [initialMergeState], ?_, by simp [initialMergeState], ?_⟩ <;> intro o ho <;> simp [initialMergeState] at ho)

/-- C6: in every run, no two accepted output items reference the same secondary
item identity (guid, else link, else title): each secondary item backs at most
one output item, because a consumed identity makes every later primary item
that matches it be skipped as a duplicate. -/
theorem c6_no_secondary_reuse (expModel : Rat → Rat)
    (primaryItems secondaryItems : List RawItem) :
    ((runMerge expModel primaryItems secondaryItems).output.map
      OutputItem.secondaryId).Nodup :=
  (runMerge_inv expModel primaryItems secondaryItems).1

/-- C7: in every run, no two accepted output items share the same normalized
core title: an accepted core title makes every later primary item with that
core be skipped as a duplicate before the match engine runs. -/
theorem c7_no_duplicate_cores (expModel : Rat → Rat)
    (primaryItems secondaryItems : List RawItem) :
    ((runMerge expModel primaryItems secondaryItems).output.map
      OutputItem.normalizedCore).Nodup :=
  (runMerge_inv expModel primaryItems secondaryItems).2.2.1

/-- C10: when the match engine returns a match whose secondary identity is
already consumed, the loop iteration changes nothing but the
duplicates-skipped counter: the processed-cores set, the used-secondary set,
the output and the other counters are untouched, so a later primary item with
the same normalized core title is still eligible. -/
theorem c10_frame_effect (expModel : Rat → Rat) (idx : SecondaryIndexes)
    (st : MergeState) (item : RawItem)
    (h1 : optTruthy (extractItemMetadata item).title = true)
    (h2 : normCoreOfMeta (extractItemMetadata item) ∉ st.processedCores)
    (h3 : dupSecondaryHit expModel idx st item = true) :
    processItem expModel idx st item =
      { st with duplicatesSkipped := st.duplicatesSkipped + 1 } := by
  unfold processItem
  rw [h1]
  rw [if_neg (by simp)]
  rw [if_neg h2]
  unfold dupSecondaryHit at h3
  cases hm : findBestMatch expModel (extractItemMetadata item) idx with
  | none =>
    rw [hm] at h3
    simp at h3
  | some mr =>
    rw [hm] at h3
    simp only [decide_eq_true_eq] at h3
    simp [h3]

/-- The secondary item of the C10 witness scenario: a guid-carrying item. -/
def c10SecItem : RawItem :=
  { titleText := some (strL "Hello World")
    linkText := some (strL "https://thearknewspaper-ca.newsmemory.com/x")
    creatorText := none, fullByline := none, pubDateMs := none
    descriptionText := none, guidText := some (strL "g1") }

/-- The primary item of the C10 witness scenario. -/
def c10PrimItem : RawItem :=
  { titleText := some (strL "Hello World")
    linkText := some (strL "https://www.thearknewspaper.com/blog/hello")
    creatorText := none, fullByline := none, pubDateMs := none
    descriptionText := none, guidText := none }

/-- The loop state of the C10 witness scenario: the secondary identity "g1"
is already consumed. -/
def c10State : MergeState :=
  { initialMergeState with usedSecondaryItems := [strL "g1"] }

/-- C10 witness: the frame effect at a concrete state in which the matched
secondary item was already consumed. -/
theorem c10_witness :
    processItem (fun _ => 0) (buildSecondaryIndexes [c10SecItem]) c10State c10PrimItem =
      { c10State with duplicatesSkipped := c10State.duplicatesSkipped + 1 } :=
  c10_frame_effect (fun _ => 0) (buildSecondaryIndexes [c10SecItem]) c10State c10PrimItem
    (by decide) (by decide) (by decide)

/-- The C1 failing input: a secondary item whose link is on the primary
publication domain, not on newsmemory.com. -/
def c1SecondaryItem : RawItem :=
  { titleText := some (strL "Hello World")
    linkText := some (strL "https://www.thearknewspaper.com/post/hello")
    creatorText := none, fullByline := none, pubDateMs := none
    descriptionText := none, guidText := none }

/-- The primary item matching it by exact normalized title. -/
def c1PrimaryItem : RawItem :=
  { titleText := some (strL "Hello World")
    linkText := some (strL "https://www.thearknewspaper.com/blog/hello")
    creatorText := none, fullByline := none, pubDateMs := none
    descriptionText := none, guidText := none }

/-- C1: evaluation of the code at the failing input.  `buildSecondaryIndexes`
contains no link filter (the `PATTERNS.newsmemoryLink` regex of the source is
defined but never used), so a secondary item whose link lacks the
newsmemory.com marker is indexed, matched, and emitted: the run output
contains an item whose link carries the primary-domain marker and lacks the
secondary-domain marker, violating the claimed filter invariant. -/
theorem c1_filter_violation :
    (buildSecondaryIndexes [c1SecondaryItem]).items.length = 1 ∧
    containsSub (strL "newsmemory.com")
      (optStr (extractItemMetadata c1SecondaryItem).link) = false ∧
    ((runMerge (fun _ => 0) [c1PrimaryItem] [c1SecondaryItem]).output.map
      OutputItem.link) = [strL "https://www.thearknewspaper.com/post/hello"] ∧
    containsSub (strL "thearknewspaper.com")
      (strL "https://www.thearknewspaper.com/post/hello") = true ∧
    containsSub (strL "newsmemory.com")
      (strL "https://www.thearknewspaper.com/post/hello") = false :=
  ⟨by decide, by decide, by decide, by decide, by decide⟩

end RssMerger

